import Mathlib

/-!
Verification development for the MOSAL #Matches-#Gaps dynamic program
(src/Gaps/Matches/No_traceback/DP/main.c).

The program keeps three DP tables Q, S and T of Pareto frontiers of
(matches, gaps) score vectors, fills them row by row with rolling
two-row buffers, and prints the frontier found at Q[M % 2][N].

The Pareto-set operations (`append_node`, `pareto_merge2`,
`pareto_merge3`) are declared in pareto_set.h, whose implementation is
not part of the sources; they are modelled from the specification
(spec sections 3 and 4.1).  Everything else (table initialisation, the
alignment loops, the resets, the CLI dispatch) is translated directly
from main.c.

C `int` values are modelled as `Nat` (all stored scores are
non-negative counts); the sentinel gap value `INT_MAX` is the literal
2147483647, and the gap-extension transform may push it above that
value without wrapping, matching the specification's reading of the
sentinel as an "unreachable (+infinity)" marker that is discarded by
dominance as soon as any finite point participates in the same merge.
-/

/-- A score vector, C struct `VMG`: number of matches (C field `matches`,
renamed because `matches` is a Lean keyword) and number of gaps. -/
structure VMG where
  nmatches : Nat
  gaps : Nat
deriving DecidableEq

/-- C `INT_MAX`, the sentinel gap count used for unreachable base cases. -/
def INTMAX : Nat := 2147483647

/-- The sentinel point `(0, INT_MAX)` seeded into `T[0][1..N]` and `S[0]`. -/
def sentinel : VMG := ⟨0, INTMAX⟩

/-- Modelled from the spec: Pareto dominance (spec section 3).
`p` dominates `q` iff `p.nmatches ≥ q.nmatches`, `p.gaps ≤ q.gaps`, and the two
points are not equal in both coordinates. -/
def dominates (p q : VMG) : Bool :=
  decide (q.nmatches ≤ p.nmatches) && decide (p.gaps ≤ q.gaps) &&
    (decide (q.nmatches < p.nmatches) || decide (p.gaps < q.gaps))

theorem dominates_iff {p q : VMG} :
    dominates p q = true ↔
      q.nmatches ≤ p.nmatches ∧ p.gaps ≤ q.gaps ∧
        (q.nmatches < p.nmatches ∨ p.gaps < q.gaps) := by
  simp [dominates, and_assoc]

theorem dominates_irrefl (p : VMG) : dominates p p = false := by
  have h : ¬ dominates p p = true := by
    rw [dominates_iff]
    omega
  simpa using h

theorem dominates_trans {p q r : VMG} (h1 : dominates p q = true)
    (h2 : dominates q r = true) : dominates p r = true := by
  rw [dominates_iff] at h1 h2 ⊢
  omega

/-- Modelled from the spec: insertion with dominance filtering
(spec section 4.1, `insert`).  A point is added unless an existing member
dominates it or equals it (deduplication); members it dominates are removed. -/
def insertPoint (fr : List VMG) (p : VMG) : List VMG :=
  if fr.any (fun q => dominates q p || q == p) then fr
  else p :: fr.filter (fun q => ! dominates p q)

/-- Modelled from the spec: building a Pareto frontier by inserting every
point of a list in turn, starting from the empty frontier.  All merge
operations are expressed through this function. -/
def mergeList (L : List VMG) : List VMG := L.foldl insertPoint []

/-- Modelled from the spec: `append_node(&set, m, g)` of pareto_set.h inserts
the score vector `(m, g)` into the set. -/
def append_node (fr : List VMG) (m g : Nat) : List VMG := insertPoint fr ⟨m, g⟩

/-- Gap-extension transform (spec section 4.1): one more gap symbol. -/
def gap_ext (p : VMG) : VMG := ⟨p.nmatches, p.gaps + 1⟩

/-- Diagonal-extension transform (spec section 4.1): a match adds one match,
a mismatch is free. -/
def diag_ext (m : Bool) (p : VMG) : VMG :=
  ⟨p.nmatches + (if m then 1 else 0), p.gaps⟩

/-- Modelled from the spec: `pareto_merge2(&dest, a, b)` gap-extends every
point of the two source frontiers and dominance-filters the union
(used for the S and T recurrences). -/
def pareto_merge2 (a b : List VMG) : List VMG :=
  mergeList (((a ++ b).map gap_ext))

/-- Modelled from the spec: `pareto_merge3(&dest, s, t, q, match)` unions the
frontiers `s` and `t` with the diagonal extension of `q` and
dominance-filters the result (used for the Q recurrence). -/
def pareto_merge3 (s t q : List VMG) (m : Bool) : List VMG :=
  mergeList (s ++ t ++ q.map (diag_ext m))

/-- The Pareto-frontier invariant: no member dominates any member
(irreflexivity makes this equivalent to "no member dominates a distinct
member"). -/
def pairwiseND (F : List VMG) : Prop :=
  ∀ p ∈ F, ∀ q ∈ F, dominates p q = false

instance (F : List VMG) : Decidable (pairwiseND F) := by
  unfold pairwiseND
  infer_instance

/-- Every member of the accumulator weakly dominates nothing yet to come;
`covers F L` says every point of `L` is equal to or dominated by a member
of `F`. -/
def covers (F L : List VMG) : Prop :=
  ∀ a ∈ L, ∃ m ∈ F, m = a ∨ dominates m a = true

theorem insertPoint_pairwiseND {F : List VMG} (hF : pairwiseND F) (p : VMG) :
    pairwiseND (insertPoint F p) := by
  unfold insertPoint
  by_cases h : F.any (fun q => dominates q p || q == p)
  · simpa [h] using hF
  · simp only [h, if_false]
    have hno : ∀ q ∈ F, dominates q p = false ∧ q ≠ p := by
      intro q hq
      constructor
      · by_contra hd
        exact h (List.any_eq_true.mpr ⟨q, hq, by simp_all⟩)
      · intro hqp
        exact h (List.any_eq_true.mpr ⟨q, hq, by simp [hqp]⟩)
    intro a ha b hb
    rcases List.mem_cons.mp ha with ha1 | ha'
    · rcases List.mem_cons.mp hb with hb1 | hb'
      · rw [ha1, hb1]
        exact dominates_irrefl p
      · rw [ha1]
        have := (List.mem_filter.mp hb').2
        simpa using this
    · have haF := (List.mem_filter.mp ha').1
      rcases List.mem_cons.mp hb with hb1 | hb'
      · rw [hb1]
        exact (hno a haF).1
      · exact hF a haF b (List.mem_filter.mp hb').1

theorem insertPoint_subset {F : List VMG} {p a : VMG}
    (ha : a ∈ insertPoint F p) : a ∈ F ∨ a = p := by
  unfold insertPoint at ha
  by_cases h : F.any (fun q => dominates q p || q == p)
  · simp only [h, if_true] at ha
    exact Or.inl ha
  · simp only [h, if_false] at ha
    rcases List.mem_cons.mp ha with ha1 | ha'
    · exact Or.inr ha1
    · exact Or.inl (List.mem_filter.mp ha').1

theorem insertPoint_covers {F L : List VMG} {p : VMG}
    (hc : covers F L) : covers (insertPoint F p) (L ++ [p]) := by
  unfold insertPoint
  by_cases h : F.any (fun q => dominates q p || q == p)
  · simp only [h, if_true]
    intro a ha
    rcases List.mem_append.mp ha with haL | hap
    · exact hc a haL
    · have hap' : a = p := by simpa using hap
      rcases List.any_eq_true.mp h with ⟨d, hdF, hd⟩
      have hd' : dominates d p = true ∨ d = p := by
        simpa using hd
      rcases hd' with hdom | heq
      · exact ⟨d, hdF, Or.inr (hap' ▸ hdom)⟩
      · exact ⟨d, hdF, Or.inl (by rw [heq, hap'])⟩
  · simp only [h, if_false]
    intro a ha
    rcases List.mem_append.mp ha with haL | hap
    · rcases hc a haL with ⟨m, hmF, hm⟩
      by_cases hdm : dominates p m = true
      · refine ⟨p, List.mem_cons_self _ _, Or.inr ?_⟩
        rcases hm with hme | hdom
        · exact hme ▸ hdm
        · exact dominates_trans hdm hdom
      · refine ⟨m, List.mem_cons_of_mem _ ?_, hm⟩
        exact List.mem_filter.mpr ⟨hmF, by simpa using hdm⟩
    · have hap' : a = p := by simpa using hap
      exact ⟨p, List.mem_cons_self _ _, Or.inl hap'.symm⟩

theorem foldl_insertPoint_inv (L : List VMG) :
    ∀ F seen : List VMG, pairwiseND F → (∀ a ∈ F, a ∈ seen) → covers F seen →
      pairwiseND (L.foldl insertPoint F) ∧
        (∀ a ∈ L.foldl insertPoint F, a ∈ seen ++ L) ∧
        covers (L.foldl insertPoint F) (seen ++ L) := by
  induction L with
  | nil =>
    intro F seen h1 h2 h3
    simpa using ⟨h1, h2, h3⟩
  | cons r L ih =>
    intro F seen h1 h2 h3
    have step := ih (insertPoint F r) (seen ++ [r])
      (insertPoint_pairwiseND h1 r)
      (by
        intro a ha
        rcases insertPoint_subset ha with haF | rfl
        · exact List.mem_append.mpr (Or.inl (h2 a haF))
        · exact List.mem_append.mpr (Or.inr (List.mem_singleton.mpr rfl)))
      (insertPoint_covers h3)
    have harr : (seen ++ [r]) ++ L = seen ++ r :: L := by
      simp
    rw [harr] at step
    simpa using step

/-- Canonical characterisation of the spec-modelled frontier construction:
the result of inserting every point of `L` is exactly the set of points of
`L` that no point of `L` dominates. -/
theorem mem_mergeList {L : List VMG} {a : VMG} :
    a ∈ mergeList L ↔ a ∈ L ∧ ∀ q ∈ L, dominates q a = false := by
  have inv := foldl_insertPoint_inv L [] []
    (by intro p hp; cases hp) (by intro a ha; cases ha)
    (by intro a ha; cases ha)
  simp only [List.nil_append] at inv
  obtain ⟨hPND, hsub, hcov⟩ := inv
  constructor
  · intro haR
    refine ⟨hsub a haR, ?_⟩
    intro q hqL
    by_contra hdom
    have hdom' : dominates q a = true := by
      simpa using hdom
    rcases hcov q hqL with ⟨m, hmR, hm⟩
    have hma : dominates m a = true := by
      rcases hm with rfl | hmq
      · exact hdom'
      · exact dominates_trans hmq hdom'
    have := hPND m hmR a haR
    rw [this] at hma
    cases hma
  · rintro ⟨haL, hnd⟩
    rcases hcov a haL with ⟨m, hmR, hm⟩
    rcases hm with rfl | hdom
    · exact hmR
    · have := hnd m (hsub m hmR)
      rw [this] at hdom
      cases hdom

theorem pairwiseND_mergeList (L : List VMG) : pairwiseND (mergeList L) := by
  have inv := foldl_insertPoint_inv L [] []
    (by intro p hp; cases hp) (by intro a ha; cases ha)
    (by intro a ha; cases ha)
  exact inv.1

theorem pairwiseND_merge2 (a b : List VMG) : pairwiseND (pareto_merge2 a b) :=
  pairwiseND_mergeList _

theorem pairwiseND_merge3 (s t q : List VMG) (m : Bool) :
    pairwiseND (pareto_merge3 s t q m) :=
  pairwiseND_mergeList _

theorem pairwiseND_singleton (p : VMG) : pairwiseND [p] := by
  intro a ha b hb
  rw [List.mem_singleton.mp ha, List.mem_singleton.mp hb]
  exact dominates_irrefl p

/-- Membership in a gap-extension merge. -/
theorem mem_merge2 {x y : List VMG} {a : VMG} :
    a ∈ pareto_merge2 x y ↔
      a ∈ (x ++ y).map gap_ext ∧
        ∀ q ∈ (x ++ y).map gap_ext, dominates q a = false := by
  unfold pareto_merge2
  exact mem_mergeList

/-- Membership in the three-way union merge. -/
theorem mem_merge3 {s t q : List VMG} {m : Bool} {a : VMG} :
    a ∈ pareto_merge3 s t q m ↔
      a ∈ s ++ t ++ q.map (diag_ext m) ∧
        ∀ b ∈ s ++ t ++ q.map (diag_ext m), dominates b a = false := by
  unfold pareto_merge3
  exact mem_mergeList

/-!
## The DP recurrence of `align()` as a pure row recurrence

`main.c` keeps only two live rows of Q and T and one row of S; each row
is computed from the previous one.  The following pure functions compute
the triple `(S[i][j], T[i][j], Q[i][j])` of cell values row by row; a
simulation theorem below shows the imperative two-row model stores
exactly these values.  Indices are those of the full conceptual tables:
row `i` of the C code's loop, column `j`.
-/

/-- Row 0 of the tables, as seeded by `init_dynamic_tables` (main.c
lines 171-178): `Q[0][0] = {(0,0)}`, `Q[0][j] = {(0,1)}` for `j ≥ 1`
(note: the C code appends `(0, 1)`, not `(0, j)`), `T[0][j] = {(0,INT_MAX)}`
for `j ≥ 1`, and the S row, of which only `S[0] = {(0,INT_MAX)}` is
meaningful (the rest is empty). -/
def row0cells : Nat → List VMG × List VMG × List VMG
  | 0 => ([sentinel], [], [⟨0, 0⟩])
  | _ + 1 => ([], [sentinel], [⟨0, 1⟩])

/-- One row `i1 ≥ 1` of the recurrence (main.c lines 194-211), given the
previous row's cells.  Column 0: `S[0]` keeps its sentinel (it is never
reset, line 219's loop starts at `k = 1`), `T[·][0]` is out of reach, and
`Q[curr][0]` is seeded with `(0, 1)` (line 201; again `(0,1)`, not `(0,i)`).
Column `j ≥ 1`:
`S[j] = pareto_merge2(S[j-1], Q[curr][j-1])`,
`T[curr][j] = pareto_merge2(T[prev][j], Q[prev][j])`,
`Q[curr][j] = pareto_merge3(S[j], T[curr][j], Q[prev][j-1], match)` with
`match = (seq1[i1-1] == seq2[j-1])`. -/
def rowCells (s1 s2 : List Char) (i1 : Nat)
    (prevRow : Nat → List VMG × List VMG × List VMG) :
    Nat → List VMG × List VMG × List VMG
  | 0 => ([sentinel], [], [⟨0, 1⟩])
  | j + 1 =>
    let left := rowCells s1 s2 i1 prevRow j
    let Snew := pareto_merge2 left.1 left.2.2
    let Tnew := pareto_merge2 (prevRow (j + 1)).2.1 (prevRow (j + 1)).2.2
    let m := s1.getD (i1 - 1) ' ' == s2.getD j ' '
    (Snew, Tnew, pareto_merge3 Snew Tnew (prevRow j).2.2 m)

/-- All cells of the conceptual DP tables: `cellRows s1 s2 i j` is the
triple `(S, T, Q)` of cell values at row `i`, column `j`. -/
def cellRows (s1 s2 : List Char) : Nat → Nat → List VMG × List VMG × List VMG
  | 0 => row0cells
  | i + 1 => rowCells s1 s2 (i + 1) (cellRows s1 s2 i)

/-- The S-table cell at row `i`, column `j` (for `i ≥ 1`, the value of
`S[j]` right after its `pareto_merge2` call while row `i` is processed). -/
def Scell (s1 s2 : List Char) (i j : Nat) : List VMG :=
  (cellRows s1 s2 i j).1

/-- The T-table cell at row `i`, column `j`. -/
def Tcell (s1 s2 : List Char) (i j : Nat) : List VMG :=
  (cellRows s1 s2 i j).2.1

/-- The Q-table cell at row `i`, column `j`. -/
def Qcell (s1 s2 : List Char) (i j : Nat) : List VMG :=
  (cellRows s1 s2 i j).2.2

theorem Scell_zero_col (s1 s2 : List Char) (i : Nat) :
    Scell s1 s2 i 0 = [sentinel] := by
  cases i <;> rfl

theorem Qcell_zero_col (s1 s2 : List Char) (i : Nat) :
    Qcell s1 s2 (i + 1) 0 = [⟨0, 1⟩] := rfl

theorem Scell_succ (s1 s2 : List Char) (i j : Nat) :
    Scell s1 s2 (i + 1) (j + 1) =
      pareto_merge2 (Scell s1 s2 (i + 1) j) (Qcell s1 s2 (i + 1) j) := by
  simp only [Scell, Qcell, cellRows, rowCells]

theorem Tcell_succ (s1 s2 : List Char) (i j : Nat) :
    Tcell s1 s2 (i + 1) (j + 1) =
      pareto_merge2 (Tcell s1 s2 i (j + 1)) (Qcell s1 s2 i (j + 1)) := by
  simp only [Tcell, Qcell, cellRows, rowCells]

theorem Qcell_succ (s1 s2 : List Char) (i j : Nat) :
    Qcell s1 s2 (i + 1) (j + 1) =
      pareto_merge3 (Scell s1 s2 (i + 1) (j + 1)) (Tcell s1 s2 (i + 1) (j + 1))
        (Qcell s1 s2 i j) (s1.getD i ' ' == s2.getD j ' ') := by
  simp only [Qcell, Scell, Tcell, cellRows, rowCells, Nat.add_sub_cancel]

/-!
## The imperative model: rolling two-row tables, parity indexing, resets

Faithful state-passing translation of `init_dynamic_tables()` and
`align()` from main.c.  The C arrays become total functions (cells that
the C program never allocates or touches are empty); `Q` and `T` have
two live rows addressed by `curr = i % 2` and `prev = !(i % 2)`.
-/

/-- The mutable state of the program: DP tables `Q`, `T` (two rows,
first index is the row-parity line) and the single-row table `S`. -/
structure Tables where
  Q : Nat → Nat → List VMG
  T : Nat → Nat → List VMG
  S : Nat → List VMG

/-- Update one cell of a two-row table. -/
def upd2 (f : Nat → Nat → List VMG) (i j : Nat) (v : List VMG) :
    Nat → Nat → List VMG :=
  Function.update f i (Function.update (f i) j v)

/-- `init_dynamic_tables()` (main.c lines 140-179): all cells start empty
(`num = 0`); the base cases append `(0,0)` to `Q[0][0]`, `(0,1)` to
`Q[0][i]` and `(0,INT_MAX)` to `T[0][i]` for `i = 1..N`, and `(0,INT_MAX)`
to `S[0]`. -/
def init_dynamic_tables (N : Nat) : Tables where
  Q := fun i j =>
    if i = 0 ∧ j = 0 then append_node [] 0 0
    else if i = 0 ∧ 1 ≤ j ∧ j ≤ N then append_node [] 0 1
    else []
  T := fun i j =>
    if i = 0 ∧ 1 ≤ j ∧ j ≤ N then append_node [] 0 INTMAX
    else []
  S := fun j => if j = 0 then append_node [] 0 INTMAX else []

/-- One iteration of the inner loop of `align()` (main.c lines 205-211)
at row `i`, column `j` (`1 ≤ j`): `match = (seq1[i-1] == seq2[j-1])`;
`pareto_merge2(&S[j], S[j-1], Q[curr][j-1])`;
`pareto_merge2(&T[curr][j], T[prev][j], Q[prev][j])`;
`pareto_merge3(&Q[curr][j], S[j], T[curr][j], Q[prev][j-1], match)`. -/
def innerStep (s1 s2 : List Char) (i j : Nat) (tb : Tables) : Tables :=
  let curr := i % 2
  let prev := 1 - curr
  let m := s1.getD (i - 1) ' ' == s2.getD (j - 1) ' '
  let Snew := pareto_merge2 (tb.S (j - 1)) (tb.Q curr (j - 1))
  let Tnew := pareto_merge2 (tb.T prev j) (tb.Q prev j)
  let Qnew := pareto_merge3 Snew Tnew (tb.Q prev (j - 1)) m
  { S := Function.update tb.S j Snew,
    T := upd2 tb.T curr j Tnew,
    Q := upd2 tb.Q curr j Qnew }

/-- The end-of-row reset of a previous line of `Q` or `T`
(main.c lines 214-217): `num = 0` for `k = 0..N`. -/
def resetRow (row : Nat → List VMG) (N : Nat) : Nat → List VMG :=
  fun k => if k ≤ N then [] else row k

/-- The end-of-row reset of `S` (main.c lines 219-221): `num = 0` for
`k = 1..N` only; `S[0]` is left untouched. -/
def resetS_tail (S : Nat → List VMG) (N : Nat) : Nat → List VMG :=
  fun k => if 1 ≤ k ∧ k ≤ N then [] else S k

/-- One iteration of the outer loop of `align()` (main.c lines 194-222) for
row `i` (`1 ≤ i`): `curr = i % 2`, `prev = !(i % 2)` (for `curr ∈ {0,1}`
this is `1 - curr`); seed `Q[curr][0]` by appending `(0, 1)` (line 201);
run the inner loop for `j = 1..N`; then reset line `prev` of `Q` and `T`
and the tail of `S`. -/
def rowStep (s1 s2 : List Char) (N i : Nat) (tb : Tables) : Tables :=
  let curr := i % 2
  let prev := 1 - curr
  let tb1 : Tables :=
    { tb with Q := upd2 tb.Q curr 0 (append_node (tb.Q curr 0) 0 1) }
  let tb2 := (List.range N).foldl (fun t k => innerStep s1 s2 i (k + 1) t) tb1
  { Q := Function.update tb2.Q prev (resetRow (tb2.Q prev) N),
    T := Function.update tb2.T prev (resetRow (tb2.T prev) N),
    S := resetS_tail tb2.S N }

/-- The state of the tables after `init_dynamic_tables()` and the first
`i` iterations of the outer loop of `align()`. -/
def alignUpTo (s1 s2 : List Char) : Nat → Tables
  | 0 => init_dynamic_tables s2.length
  | i + 1 => rowStep s1 s2 s2.length (i + 1) (alignUpTo s1 s2 i)

/-- `align()` run to completion: `M = strlen(seq1)` outer iterations. -/
def align (s1 s2 : List Char) : Tables := alignUpTo s1 s2 s1.length

/-- The frontier printed by `main()` (main.c lines 102-106): the scores
stored at `Q[line][N]` with `line = M % 2`. -/
def finalFrontier (s1 s2 : List Char) : List VMG :=
  (align s1 s2).Q (s1.length % 2) s2.length

/-!
## The CLI dispatch of `main()` and `read_sequence()`

The file system is an external collaborator; a file handed to
`read_sequence` is modelled by its observable outcome: it cannot be
opened, it opens but does not start with a valid FASTA header, or it is
a valid FASTA file whose concatenated sequence lines give a sequence.
`exit(-1)` is modelled by the exit code `-1` (any nonzero value; the
operating system reports 255 for it).
-/

/-- Outcome of handing one file path to `read_sequence()`. -/
inductive FileInput where
  | unopenable : FileInput
  | badFormat : FileInput
  | fasta : List Char → FileInput
deriving DecidableEq

/-- A line of standard output: the usage message (main.c line 90), the
format-error message (line 129), or one `"<matches> <gaps>"` score line
(line 106). -/
inductive OutLine where
  | usage : OutLine
  | formatErr : OutLine
  | score : Nat → Nat → OutLine
deriving DecidableEq

/-- Observable result of a program run: exit code, standard output, and
whether the file-open failure message was printed to standard error
(main.c line 135). -/
structure ProgResult where
  exitCode : Int
  stdout : List OutLine
  openFailReported : Bool
deriving DecidableEq

/-- `read_sequence()` (main.c lines 113-138): a file that cannot be opened
reports to stderr and exits with `-1`; a file without a valid FASTA header
prints the format message and exits with `-1`; otherwise the sequence is
the concatenation of the remaining input tokens. -/
def read_sequence : FileInput → Except ProgResult (List Char)
  | .unopenable => .error ⟨-1, [], true⟩
  | .badFormat => .error ⟨-1, [.formatErr], false⟩
  | .fasta s => .ok s

/-- `main()` (main.c lines 87-111): with an argument count other than 3 it
prints the usage message and returns 0; otherwise it reads both sequences
(aborting with the reader's result on failure), aligns them, and prints
the final frontier, returning 0. -/
def prog_main (argc : Nat) (f1 f2 : FileInput) : ProgResult :=
  if argc ≠ 3 then ⟨0, [.usage], false⟩
  else
    match read_sequence f1 with
    | .error r => r
    | .ok s1 =>
      match read_sequence f2 with
      | .error r => r
      | .ok s2 =>
        ⟨0, (finalFrontier s1 s2).map (fun p => .score p.nmatches p.gaps), false⟩

/-!
## Brute-force ground truth

Exhaustive enumeration of the `(matches, gaps)` score vectors of all
global alignments of two sequences, and the dominance filter over that
list, used to check the engine's output (spec section 8, correctness
versus brute force).
-/

/-- Score vectors of the alignments of the empty sequence with `ys`:
everything is a gap. -/
def gapsOnly : List Char → List VMG
  | [] => [⟨0, 0⟩]
  | _ :: ys => (gapsOnly ys).map gap_ext

/-- Score vectors of the alignments of `x :: xs` with a second sequence,
given the score vectors `f` of the alignments of `xs` with every suffix of
the second sequence.  The last alignment column is either `(x, y)`
(diagonal: a match adds one match, a mismatch is free), a gap consumed by
the second sequence, or a gap consumed by `x`. -/
def alignRowScores (x : Char) (f : List Char → List VMG) :
    List Char → List VMG
  | [] => (f []).map gap_ext
  | y :: ys =>
    ((f ys).map (diag_ext (x == y)) ++
      ((alignRowScores x f ys).map gap_ext ++ (f (y :: ys)).map gap_ext))

/-- Score vectors of all global alignments of `xs` and `ys`. -/
def alignScores : List Char → List Char → List VMG
  | [], ys => gapsOnly ys
  | x :: xs, ys => alignRowScores x (alignScores xs) ys

/-- The Pareto frontier of a list of score vectors: the points that no
point of the list dominates, without duplicates. -/
def paretoFilter (L : List VMG) : List VMG :=
  (L.filter (fun p => ! L.any (fun q => dominates q p))).dedup

/-!
## Simulation: the imperative model stores the recurrence's cell values
-/

theorem append_node_nil (m g : Nat) : append_node [] m g = [⟨m, g⟩] := rfl

theorem Tcell_zero_col (s1 s2 : List Char) (i : Nat) :
    Tcell s1 s2 i 0 = [] := by
  cases i <;> rfl

theorem upd2_same (f : Nat → Nat → List VMG) (i j : Nat) (v : List VMG) :
    upd2 f i j v i j = v := by
  simp [upd2]

theorem upd2_row_ne (f : Nat → Nat → List VMG) (i j : Nat) (v : List VMG)
    (i' : Nat) (h : i' ≠ i) : upd2 f i j v i' = f i' := by
  simp [upd2, Function.update_noteq h]

theorem upd2_col_ne (f : Nat → Nat → List VMG) (i j : Nat) (v : List VMG)
    (i' j' : Nat) (h : j' ≠ j) : upd2 f i j v i' j' = f i' j' := by
  by_cases hi : i' = i
  · subst hi
    simp [upd2, Function.update_same, Function.update_noteq h]
  · simp [upd2, Function.update_noteq hi]

/-- Invariant of the inner loop of `align()` at row `i + 1` after the
columns `1..n` have been processed. -/
def stepInv (s1 s2 : List Char) (i N n : Nat) (t : Tables) : Prop :=
  (∀ j, j ≤ n → t.S j = Scell s1 s2 (i + 1) j) ∧
  (∀ j, n < j → j ≤ N → t.S j = []) ∧
  (∀ j, j ≤ n → t.Q ((i + 1) % 2) j = Qcell s1 s2 (i + 1) j) ∧
  (∀ j, n < j → j ≤ N → t.Q ((i + 1) % 2) j = []) ∧
  (∀ j, j ≤ N → t.Q (1 - (i + 1) % 2) j = Qcell s1 s2 i j) ∧
  (∀ j, j ≤ n → t.T ((i + 1) % 2) j = Tcell s1 s2 (i + 1) j) ∧
  (∀ j, n < j → j ≤ N → t.T ((i + 1) % 2) j = []) ∧
  (∀ j, j ≤ N → t.T (1 - (i + 1) % 2) j = Tcell s1 s2 i j)

theorem stepInv_step (s1 s2 : List Char) (i N n : Nat) (t : Tables)
    (hn : n + 1 ≤ N) (h : stepInv s1 s2 i N n t) :
    stepInv s1 s2 i N (n + 1) (innerStep s1 s2 (i + 1) (n + 1) t) := by
  obtain ⟨hS, hS0, hQc, hQc0, hQp, hTc, hTc0, hTp⟩ := h
  have hcp : (i + 1) % 2 ≠ 1 - (i + 1) % 2 := by omega
  have hSnew :
      pareto_merge2 (t.S (n + 1 - 1)) (t.Q ((i + 1) % 2) (n + 1 - 1)) =
        Scell s1 s2 (i + 1) (n + 1) := by
    simp only [Nat.add_sub_cancel]
    rw [hS n (Nat.le_refl n), hQc n (Nat.le_refl n), Scell_succ]
  have hTnew :
      pareto_merge2 (t.T (1 - (i + 1) % 2) (n + 1)) (t.Q (1 - (i + 1) % 2) (n + 1)) =
        Tcell s1 s2 (i + 1) (n + 1) := by
    rw [hTp (n + 1) hn, hQp (n + 1) hn, Tcell_succ]
  have hQnew :
      pareto_merge3 (Scell s1 s2 (i + 1) (n + 1)) (Tcell s1 s2 (i + 1) (n + 1))
          (t.Q (1 - (i + 1) % 2) (n + 1 - 1))
          (s1.getD (i + 1 - 1) ' ' == s2.getD (n + 1 - 1) ' ') =
        Qcell s1 s2 (i + 1) (n + 1) := by
    simp only [Nat.add_sub_cancel]
    rw [hQp n (Nat.le_of_succ_le hn), Qcell_succ]
  simp only [innerStep, hSnew, hTnew, hQnew]
  refine ⟨?_, ?_, ?_, ?_, ?_, ?_, ?_, ?_⟩
  · intro j hj
    dsimp only
    rcases Nat.lt_or_ge j (n + 1) with hlt | hge
    · rw [Function.update_noteq (Nat.ne_of_lt hlt)]
      exact hS j (Nat.lt_succ_iff.mp hlt)
    · have hj' : j = n + 1 := Nat.le_antisymm hj hge
      subst hj'
      rw [Function.update_same]
  · intro j hj hjN
    dsimp only
    rw [Function.update_noteq (by omega)]
    exact hS0 j (by omega) hjN
  · intro j hj
    dsimp only
    rcases Nat.lt_or_ge j (n + 1) with hlt | hge
    · rw [upd2_col_ne _ _ _ _ _ _ (Nat.ne_of_lt hlt)]
      exact hQc j (Nat.lt_succ_iff.mp hlt)
    · have hj' : j = n + 1 := Nat.le_antisymm hj hge
      subst hj'
      rw [upd2_same]
  · intro j hj hjN
    dsimp only
    rw [upd2_col_ne _ _ _ _ _ _ (by omega)]
    exact hQc0 j (by omega) hjN
  · intro j hjN
    dsimp only
    rw [upd2_row_ne _ _ _ _ _ (Ne.symm hcp)]
    exact hQp j hjN
  · intro j hj
    dsimp only
    rcases Nat.lt_or_ge j (n + 1) with hlt | hge
    · rw [upd2_col_ne _ _ _ _ _ _ (Nat.ne_of_lt hlt)]
      exact hTc j (Nat.lt_succ_iff.mp hlt)
    · have hj' : j = n + 1 := Nat.le_antisymm hj hge
      subst hj'
      rw [upd2_same]
  · intro j hj hjN
    dsimp only
    rw [upd2_col_ne _ _ _ _ _ _ (by omega)]
    exact hTc0 j (by omega) hjN
  · intro j hjN
    dsimp only
    rw [upd2_row_ne _ _ _ _ _ (Ne.symm hcp)]
    exact hTp j hjN

theorem init_S_val (N j : Nat) :
    (init_dynamic_tables N).S j = if j = 0 then [sentinel] else [] := by
  simp only [init_dynamic_tables, append_node_nil]
  rfl

theorem init_Q_val (s1 s2 : List Char) (N j : Nat) (hj : j ≤ N) :
    (init_dynamic_tables N).Q 0 j = Qcell s1 s2 0 j := by
  cases j with
  | zero => simp [init_dynamic_tables, append_node_nil, Qcell, cellRows, row0cells]
  | succ j =>
    simp [init_dynamic_tables, append_node_nil, Qcell, cellRows, row0cells,
      Nat.succ_ne_zero, hj]

theorem init_Q_one (N j : Nat) : (init_dynamic_tables N).Q 1 j = [] := by
  simp [init_dynamic_tables]

theorem init_T_val (s1 s2 : List Char) (N j : Nat) (hj : j ≤ N) :
    (init_dynamic_tables N).T 0 j = Tcell s1 s2 0 j := by
  cases j with
  | zero => simp [init_dynamic_tables, Tcell, cellRows, row0cells]
  | succ j =>
    simp [init_dynamic_tables, append_node_nil, Tcell, cellRows, row0cells,
      hj, sentinel]

theorem init_T_one (N j : Nat) : (init_dynamic_tables N).T 1 j = [] := by
  simp [init_dynamic_tables]

theorem rowStep_sim (s1 s2 : List Char) (N i : Nat) (tb : Tables)
    (h1 : tb.S 0 = [sentinel])
    (h2 : ∀ j, 1 ≤ j → j ≤ N → tb.S j = [])
    (h3 : ∀ j, j ≤ N → tb.Q (1 - (i + 1) % 2) j = Qcell s1 s2 i j)
    (h4 : ∀ j, j ≤ N → tb.Q ((i + 1) % 2) j = [])
    (h5 : ∀ j, j ≤ N → tb.T (1 - (i + 1) % 2) j = Tcell s1 s2 i j)
    (h6 : ∀ j, j ≤ N → tb.T ((i + 1) % 2) j = []) :
    ((rowStep s1 s2 N (i + 1) tb).S 0 = [sentinel]) ∧
    (∀ j, 1 ≤ j → j ≤ N → (rowStep s1 s2 N (i + 1) tb).S j = []) ∧
    (∀ j, j ≤ N →
      (rowStep s1 s2 N (i + 1) tb).Q ((i + 1) % 2) j = Qcell s1 s2 (i + 1) j) ∧
    (∀ j, j ≤ N → (rowStep s1 s2 N (i + 1) tb).Q (1 - (i + 1) % 2) j = []) ∧
    (∀ j, j ≤ N →
      (rowStep s1 s2 N (i + 1) tb).T ((i + 1) % 2) j = Tcell s1 s2 (i + 1) j) ∧
    (∀ j, j ≤ N → (rowStep s1 s2 N (i + 1) tb).T (1 - (i + 1) % 2) j = []) := by
  have hcp : (i + 1) % 2 ≠ 1 - (i + 1) % 2 := by omega
  have base : stepInv s1 s2 i N 0
      ({ tb with
        Q := upd2 tb.Q ((i + 1) % 2) 0
          (append_node (tb.Q ((i + 1) % 2) 0) 0 1) }) := by
    refine ⟨?_, ?_, ?_, ?_, ?_, ?_, ?_, ?_⟩
    · intro j hj
      have hj0 : j = 0 := Nat.le_zero.mp hj
      subst hj0
      dsimp only
      rw [h1, Scell_zero_col]
    · intro j hj hjN
      exact h2 j hj hjN
    · intro j hj
      have hj0 : j = 0 := Nat.le_zero.mp hj
      subst hj0
      dsimp only
      rw [upd2_same, h4 0 (Nat.zero_le N), append_node_nil, Qcell_zero_col]
    · intro j hj hjN
      dsimp only
      rw [upd2_col_ne _ _ _ _ _ _ (by omega)]
      exact h4 j hjN
    · intro j hjN
      dsimp only
      rw [upd2_row_ne _ _ _ _ _ (Ne.symm hcp)]
      exact h3 j hjN
    · intro j hj
      have hj0 : j = 0 := Nat.le_zero.mp hj
      subst hj0
      dsimp only
      rw [h6 0 (Nat.zero_le N), Tcell_zero_col]
    · intro j hj hjN
      exact h6 j hjN
    · intro j hjN
      exact h5 j hjN
  have hfold : ∀ n, n ≤ N → stepInv s1 s2 i N n
      ((List.range n).foldl (fun t k => innerStep s1 s2 (i + 1) (k + 1) t)
        ({ tb with
          Q := upd2 tb.Q ((i + 1) % 2) 0
            (append_node (tb.Q ((i + 1) % 2) 0) 0 1) })) := by
    intro n
    induction n with
    | zero =>
      intro _
      simpa using base
    | succ n ihn =>
      intro hn
      rw [List.range_succ, List.foldl_append, List.foldl_cons, List.foldl_nil]
      exact stepInv_step s1 s2 i N n _ hn (ihn (Nat.le_of_succ_le hn))
  have hN := hfold N (Nat.le_refl N)
  obtain ⟨kS, _kS0, kQc, _kQc0, kQp, kTc, _kTc0, kTp⟩ := hN
  refine ⟨?_, ?_, ?_, ?_, ?_, ?_⟩
  · simp only [rowStep]
    simp only [resetS_tail]
    simpa using kS 0 (Nat.zero_le N)
  · intro j hj hjN
    simp only [rowStep]
    simp only [resetS_tail]
    simp [hj, hjN]
  · intro j hjN
    simp only [rowStep]
    rw [Function.update_noteq hcp]
    exact kQc j hjN
  · intro j hjN
    simp only [rowStep]
    rw [Function.update_same]
    simp [resetRow, hjN]
  · intro j hjN
    simp only [rowStep]
    rw [Function.update_noteq hcp]
    exact kTc j hjN
  · intro j hjN
    simp only [rowStep]
    rw [Function.update_same]
    simp [resetRow, hjN]

/-- Simulation: after `init_dynamic_tables()` and `i` iterations of the
outer loop of `align()`, line `i % 2` of the two-row tables holds exactly
the recurrence's row-`i` cell values, the other line is empty, `S[0]`
still holds the sentinel, and the tail of `S` is empty. -/
theorem align_sim (s1 s2 : List Char) (i : Nat) :
    ((alignUpTo s1 s2 i).S 0 = [sentinel]) ∧
    (∀ j, 1 ≤ j → j ≤ s2.length → (alignUpTo s1 s2 i).S j = []) ∧
    (∀ j, j ≤ s2.length →
      (alignUpTo s1 s2 i).Q (i % 2) j = Qcell s1 s2 i j) ∧
    (∀ j, j ≤ s2.length → (alignUpTo s1 s2 i).Q (1 - i % 2) j = []) ∧
    (∀ j, j ≤ s2.length →
      (alignUpTo s1 s2 i).T (i % 2) j = Tcell s1 s2 i j) ∧
    (∀ j, j ≤ s2.length → (alignUpTo s1 s2 i).T (1 - i % 2) j = []) := by
  induction i with
  | zero =>
    refine ⟨?_, ?_, ?_, ?_, ?_, ?_⟩
    · simpa using init_S_val s2.length 0
    · intro j hj hjN
      rw [show (alignUpTo s1 s2 0).S j = (init_dynamic_tables s2.length).S j
          from rfl, init_S_val]
      simp only [if_neg (by omega : ¬ j = 0)]
    · intro j hjN
      exact init_Q_val s1 s2 s2.length j hjN
    · intro j hjN
      exact init_Q_one s2.length j
    · intro j hjN
      exact init_T_val s1 s2 s2.length j hjN
    · intro j hjN
      exact init_T_one s2.length j
  | succ i ih =>
    obtain ⟨h1, h2, h3, h4, h5, h6⟩ := ih
    have e1 : i % 2 = 1 - (i + 1) % 2 := by omega
    have e2 : 1 - i % 2 = (i + 1) % 2 := by omega
    rw [e1] at h3 h5
    rw [e2] at h4 h6
    exact rowStep_sim s1 s2 s2.length i (alignUpTo s1 s2 i) h1 h2 h3 h4 h5 h6

/-- The printed frontier is the recurrence's bottom-right Q cell. -/
theorem finalFrontier_eq_Qcell (s1 s2 : List Char) :
    finalFrontier s1 s2 = Qcell s1 s2 s1.length s2.length := by
  have h := (align_sim s1 s2 s1.length).2.2.1
  exact h s2.length (Nat.le_refl _)

/-!
## Score bounds

Every Q cell of the run holds only points with `matches ≤ min i j` and
`gaps ≤ i + j`; the sentinel (and every point derived from it by gap
extension) is eliminated by dominance in the very merge that first
combines it with a finite point, and never reaches a Q cell.
-/

theorem Qcell_zero_row (s1 s2 : List Char) (j : Nat) :
    Qcell s1 s2 0 (j + 1) = [⟨0, 1⟩] := rfl

theorem Tcell_zero_row (s1 s2 : List Char) (j : Nat) :
    Tcell s1 s2 0 (j + 1) = [sentinel] := rfl

theorem cell_bounds (s1 s2 : List Char) : ∀ i j : Nat,
    (∀ p ∈ Scell s1 s2 i j, 1 ≤ j →
      p.nmatches ≤ min i (j - 1) ∧ p.gaps ≤ i + j) ∧
    (∀ p ∈ Tcell s1 s2 i j, 1 ≤ i →
      p.nmatches ≤ min (i - 1) j ∧ p.gaps ≤ i + j) ∧
    (∀ p ∈ Qcell s1 s2 i j, p.nmatches ≤ min i j ∧ p.gaps ≤ i + j) := by
  intro i
  induction i with
  | zero =>
    intro j
    cases j with
    | zero =>
      refine ⟨?_, ?_, ?_⟩
      · intro p _ h1
        exact absurd h1 (by omega)
      · intro p hp
        cases hp
      · intro p hp
        rw [show Qcell s1 s2 0 0 = [⟨0, 0⟩] from rfl] at hp
        rw [List.mem_singleton.mp hp]
        refine ⟨?_, ?_⟩ <;> simp
    | succ j =>
      refine ⟨?_, ?_, ?_⟩
      · intro p hp
        rw [show Scell s1 s2 0 (j + 1) = [] from rfl] at hp
        cases hp
      · intro p _ h1
        exact absurd h1 (by omega)
      · intro p hp
        rw [Qcell_zero_row] at hp
        rw [List.mem_singleton.mp hp]
        refine ⟨?_, ?_⟩ <;> dsimp <;> omega
  | succ i ihi =>
    intro j
    induction j with
    | zero =>
      refine ⟨?_, ?_, ?_⟩
      · intro p _ h1
        exact absurd h1 (by omega)
      · intro p hp _
        rw [Tcell_zero_col] at hp
        cases hp
      · intro p hp
        rw [Qcell_zero_col] at hp
        rw [List.mem_singleton.mp hp]
        refine ⟨?_, ?_⟩ <;> dsimp <;> omega
    | succ j ihj =>
      have hS : ∀ p ∈ Scell s1 s2 (i + 1) (j + 1),
          p.nmatches ≤ min (i + 1) j ∧ p.gaps ≤ (i + 1) + (j + 1) := by
        intro p hp
        rw [Scell_succ] at hp
        obtain ⟨hmem, hnd⟩ := mem_merge2.mp hp
        rcases List.mem_map.mp hmem with ⟨b, hb, hpb⟩
        rcases List.mem_append.mp hb with hbS | hbQ
        · cases j with
          | zero =>
            rw [Scell_zero_col] at hbS
            have hq1 : (⟨0, 1⟩ : VMG) ∈
                Scell s1 s2 (i + 1) 0 ++ Qcell s1 s2 (i + 1) 0 := by
              refine List.mem_append.mpr (Or.inr ?_)
              rw [Qcell_zero_col]
              exact List.mem_singleton.mpr rfl
            have hnd1 := hnd (gap_ext ⟨0, 1⟩)
              (List.mem_map.mpr ⟨⟨0, 1⟩, hq1, rfl⟩)
            rw [← hpb, List.mem_singleton.mp hbS] at hnd1
            have htrue : dominates (gap_ext ⟨0, 1⟩) (gap_ext sentinel) = true := by
              decide
            rw [htrue] at hnd1
            cases hnd1
          | succ j' =>
            have hb' := (ihj.1) b hbS (by omega)
            rw [← hpb]
            dsimp [gap_ext]
            omega
        · have hb' := (ihj.2.2) b hbQ
          rw [← hpb]
          dsimp [gap_ext]
          omega
      have hT : ∀ p ∈ Tcell s1 s2 (i + 1) (j + 1),
          p.nmatches ≤ min i (j + 1) ∧ p.gaps ≤ (i + 1) + (j + 1) := by
        intro p hp
        rw [Tcell_succ] at hp
        obtain ⟨hmem, hnd⟩ := mem_merge2.mp hp
        rcases List.mem_map.mp hmem with ⟨b, hb, hpb⟩
        rcases List.mem_append.mp hb with hbT | hbQ
        · cases i with
          | zero =>
            rw [Tcell_zero_row] at hbT
            have hq1 : (⟨0, 1⟩ : VMG) ∈
                Tcell s1 s2 0 (j + 1) ++ Qcell s1 s2 0 (j + 1) := by
              refine List.mem_append.mpr (Or.inr ?_)
              rw [Qcell_zero_row]
              exact List.mem_singleton.mpr rfl
            have hnd1 := hnd (gap_ext ⟨0, 1⟩)
              (List.mem_map.mpr ⟨⟨0, 1⟩, hq1, rfl⟩)
            rw [← hpb, List.mem_singleton.mp hbT] at hnd1
            have htrue : dominates (gap_ext ⟨0, 1⟩) (gap_ext sentinel) = true := by
              decide
            rw [htrue] at hnd1
            cases hnd1
          | succ i' =>
            have hb' := ((ihi (j + 1)).2.1) b hbT (by omega)
            rw [← hpb]
            dsimp [gap_ext]
            omega
        · have hb' := ((ihi (j + 1)).2.2) b hbQ
          rw [← hpb]
          dsimp [gap_ext]
          omega
      refine ⟨?_, ?_, ?_⟩
      · intro p hp _
        have := hS p hp
        omega
      · intro p hp _
        have := hT p hp
        omega
      · intro p hp
        rw [Qcell_succ] at hp
        obtain ⟨hmem, hnd⟩ := mem_merge3.mp hp
        rcases List.mem_append.mp hmem with hmem2 | hmemD
        · rcases List.mem_append.mp hmem2 with hmemS | hmemT
          · have := hS p hmemS
            omega
          · have := hT p hmemT
            omega
        · rcases List.mem_map.mp hmemD with ⟨b, hb, hpb⟩
          have hb' := ((ihi j).2.2) b hb
          rw [← hpb]
          dsimp [diag_ext]
          rcases (s1.getD i ' ' == s2.getD j ' ') with _ | _ <;> dsimp <;> omega

/-!
## Claims
-/

/-- Claim C1: the claim states that for every pair of sequences with
`M, N ≤ 6` the frontier printed from `Q[M % 2][N]` equals the Pareto
frontier of the exhaustively enumerated alignment score vectors.  This
fails on the code: for `seq1 = "A"`, `seq2 = "CCA"` the program prints
`{(1, 1)}`, but the exhaustive frontier is `{(1, 2)}` (the vector
`(1, 1)` is not realised by any alignment).  The slip is in the base
cases: `init_dynamic_tables` seeds `Q[0][j] = {(0, 1)}` for every
`j = 1..N` (main.c line 175) instead of `{(0, j)}`, and `align` seeds
`Q[curr][0] = {(0, 1)}` every row (line 201) instead of `{(0, i)}`. -/
theorem claim1_brute_force_divergence :
    finalFrontier ['A'] ['C', 'C', 'A'] = [⟨1, 1⟩] ∧
    paretoFilter (alignScores ['A'] ['C', 'C', 'A']) = [⟨1, 2⟩] ∧
    finalFrontier ['A'] ['C', 'C', 'A'] ≠
      paretoFilter (alignScores ['A'] ['C', 'C', 'A']) := by
  refine ⟨by decide, by decide, by decide⟩

/-- Claim C2: the claim states that `Q[i][0] = {(0, i)}` after each row's
base-case seeding and that `seq1` of length 3 against an empty `seq2`
prints `{(0, 3)}`.  The code appends `(0, 1)` at every row (main.c line
201), so the cell holds `{(0, 1)}` (shown here at row 2) and the run on
`"AAA"` versus the empty sequence prints `{(0, 1)}`, not `{(0, 3)}`. -/
theorem claim2_column0_divergence :
    (alignUpTo ['A', 'A', 'A'] [] 2).Q (2 % 2) 0 = [⟨0, 1⟩] ∧
    finalFrontier ['A', 'A', 'A'] [] = [⟨0, 1⟩] ∧
    finalFrontier ['A', 'A', 'A'] [] ≠ [⟨0, 3⟩] := by
  refine ⟨by decide, by decide, by decide⟩

/-- Claim C3: the claim states that after initialization `Q[0][j] = {(0, j)}`
for every `j = 1..N`.  The initialization loop (main.c line 175) appends
`(0, 1)` for every `j`, so already at `N = 3`, `j = 2` the cell holds
`{(0, 1)}`, not `{(0, 2)}`. -/
theorem claim3_row0_init_divergence :
    (init_dynamic_tables 3).Q 0 2 = [⟨0, 1⟩] ∧
    (init_dynamic_tables 3).Q 0 2 ≠ [⟨0, 2⟩] := by
  refine ⟨by decide, by decide⟩

/-- Claim C4 (counterexample): the claim asserts that every printed
`(matches, gaps)` pair corresponds to a real alignment.  For
`seq1 = "A"`, `seq2 = "CCA"` the program prints `(1, 1)`, which is not
the score vector of any global alignment of the two sequences. -/
theorem claim4_counterexample :
    (⟨1, 1⟩ : VMG) ∈ finalFrontier ['A'] ['C', 'C', 'A'] ∧
    (⟨1, 1⟩ : VMG) ∉ alignScores ['A'] ['C', 'C', 'A'] := by
  refine ⟨by decide, by decide⟩

/-- Claim C4 (amended): for every pair of input sequences, every printed
point has a finite gap count bounded by `M + N`; in particular, whenever
`M + N < INT_MAX` (always true under the program's `MAX_LENGTH` bound of
4000) no point derived from the sentinel `(gaps = INT_MAX)` survives
into the printed frontier. -/
theorem claim4_amended_no_sentinel_in_output (s1 s2 : List Char) :
    ∀ p ∈ finalFrontier s1 s2,
      p.gaps ≤ s1.length + s2.length ∧
        (s1.length + s2.length < INTMAX → p.gaps < INTMAX) := by
  intro p hp
  rw [finalFrontier_eq_Qcell] at hp
  have hb := ((cell_bounds s1 s2 s1.length s2.length).2.2) p hp
  exact ⟨hb.2, fun h => lt_of_le_of_lt hb.2 h⟩

/-- Witness for the amended claim C4 at `seq1 = "A"`, `seq2 = "C"` and the
printed point `(0, 0)`. -/
theorem claim4_amended_witness :
    (⟨0, 0⟩ : VMG).gaps ≤ List.length ['A'] + List.length ['C'] ∧
      (List.length ['A'] + List.length ['C'] < INTMAX →
        (⟨0, 0⟩ : VMG).gaps < INTMAX) :=
  claim4_amended_no_sentinel_in_output ['A'] ['C'] ⟨0, 0⟩ (by decide)

/-- Claim C5: every Pareto set produced at any cell of Q, S or T during a
run — the cell states right after their `pareto_merge2` or `pareto_merge3`
call, i.e. the cell values `Scell`, `Tcell`, `Qcell` at rows `1..M` and
columns `1..N` — contains no two points such that one dominates the
other (`dominates` is irreflexive, so this covers distinct pairs). -/
theorem claim5_dominance_invariant (s1 s2 : List Char) (i j : Nat)
    (hi1 : 1 ≤ i) (hiM : i ≤ s1.length) (hj1 : 1 ≤ j) (hjN : j ≤ s2.length) :
    pairwiseND (Scell s1 s2 i j) ∧ pairwiseND (Tcell s1 s2 i j) ∧
      pairwiseND (Qcell s1 s2 i j) := by
  cases i with
  | zero => exact absurd hi1 (by omega)
  | succ i =>
    cases j with
    | zero => exact absurd hj1 (by omega)
    | succ j =>
      refine ⟨?_, ?_, ?_⟩
      · rw [Scell_succ]
        exact pairwiseND_merge2 _ _
      · rw [Tcell_succ]
        exact pairwiseND_merge2 _ _
      · rw [Qcell_succ]
        exact pairwiseND_merge3 _ _ _ _

/-- Witness for claim C5 at `seq1 = "A"`, `seq2 = "C"`, cell `(1, 1)`. -/
theorem claim5_witness :
    pairwiseND (Scell ['A'] ['C'] 1 1) ∧ pairwiseND (Tcell ['A'] ['C'] 1 1) ∧
      pairwiseND (Qcell ['A'] ['C'] 1 1) :=
  claim5_dominance_invariant ['A'] ['C'] 1 1 (by decide) (by decide)
    (by decide) (by decide)

/-- Claim C6: for input sequences `"A"` and `"C"` the final printed
frontier is exactly `{(0, 0)}`. -/
theorem claim6_single_mismatch :
    finalFrontier ['A'] ['C'] = [⟨0, 0⟩] := by
  decide

/-- Claim C7: for every pair of input sequences and every cell `(i, j)` of
Q computed during the run (the cell on line `i % 2` of the rolling buffer
after `i` outer iterations), every stored score point `(m, g)` satisfies
`m ≤ min i j` and `g ≤ i + j` (`0 ≤ m` and `0 ≤ g` hold since scores are
modelled as naturals). -/
theorem claim7_score_bounds (s1 s2 : List Char) (i j : Nat)
    (hiM : i ≤ s1.length) (hjN : j ≤ s2.length) :
    ∀ p ∈ (alignUpTo s1 s2 i).Q (i % 2) j,
      p.nmatches ≤ min i j ∧ p.gaps ≤ i + j := by
  intro p hp
  rw [(align_sim s1 s2 i).2.2.1 j hjN] at hp
  exact ((cell_bounds s1 s2 i j).2.2) p hp

/-- Witness for claim C7 at `seq1 = "A"`, `seq2 = "C"`, cell `(1, 1)`,
point `(0, 0)`. -/
theorem claim7_witness :
    (⟨0, 0⟩ : VMG).nmatches ≤ min 1 1 ∧ (⟨0, 0⟩ : VMG).gaps ≤ 1 + 1 :=
  claim7_score_bounds ['A'] ['C'] 1 1 (by decide) (by decide) ⟨0, 0⟩
    (by decide)

/-- Claim C8: with an argument count other than 3 the program prints the
usage message and exits with status 0 without computing any frontier;
when an input file cannot be opened or lacks a valid FASTA header the
program reports the error and exits with a non-zero status before
printing any score line. -/
theorem claim8_cli_errors (argc : Nat) (f1 f2 : FileInput) :
    (argc ≠ 3 → prog_main argc f1 f2 = ⟨0, [.usage], false⟩) ∧
    ((f1 = .unopenable ∨ f1 = .badFormat ∨ f2 = .unopenable ∨ f2 = .badFormat) →
      (prog_main 3 f1 f2).exitCode ≠ 0 ∧
        ∀ l ∈ (prog_main 3 f1 f2).stdout, ∀ m g, l ≠ OutLine.score m g) := by
  constructor
  · intro h
    simp [prog_main, h]
  · intro h
    rcases f1 with _ | _ | t1
    · refine ⟨by simp [prog_main, read_sequence], ?_⟩
      simp [prog_main, read_sequence]
    · refine ⟨by simp [prog_main, read_sequence], ?_⟩
      intro l hl m g
      simp [prog_main, read_sequence] at hl
      rw [hl]
      intro hcon
      exact OutLine.noConfusion hcon
    · rcases f2 with _ | _ | t2
      · refine ⟨by simp [prog_main, read_sequence], ?_⟩
        simp [prog_main, read_sequence]
      · refine ⟨by simp [prog_main, read_sequence], ?_⟩
        intro l hl m g
        simp [prog_main, read_sequence] at hl
        rw [hl]
        intro hcon
        exact OutLine.noConfusion hcon
      · rcases h with h | h | h | h <;> exact FileInput.noConfusion h

/-- Witness for claim C8: wrong argument count (2) and an unopenable
first file. -/
theorem claim8_witness :
    prog_main 2 (.fasta ['A']) (.fasta ['C']) = ⟨0, [.usage], false⟩ ∧
      (prog_main 3 .unopenable (.fasta ['C'])).exitCode ≠ 0 :=
  ⟨(claim8_cli_errors 2 (.fasta ['A']) (.fasta ['C'])).1 (by decide),
    ((claim8_cli_errors 3 .unopenable (.fasta ['C'])).2 (Or.inl rfl)).1⟩

/-- Claim C9: with both sequences empty (`M = N = 0`) the outer loop of
`align()` is skipped entirely (the state after `align` is the initial
state) and the program prints exactly one line, `0 0`, the frontier
`Q[0][0] = {(0, 0)}` of the empty alignment. -/
theorem claim9_empty_inputs :
    align [] [] = init_dynamic_tables 0 ∧
      prog_main 3 (.fasta []) (.fasta []) = ⟨0, [.score 0 0], false⟩ :=
  ⟨rfl, by decide⟩

/-- Claim C10: the end-of-row reset clears only `S[1..N]` and leaves
`S[0]` unchanged; consequently after every number of rows the cell
`S[0]` still holds the sentinel `(0, INT_MAX)` seeded at initialization,
and each row `i ≥ 1` computes its `S[1]` cell by the gap-extension merge
applied to that very sentinel frontier (and `Q[curr][0]`). -/
theorem claim10_s0_frame (s1 s2 : List Char) (i : Nat) :
    (∀ S : Nat → List VMG, ∀ N, resetS_tail S N 0 = S 0) ∧
    (∀ S : Nat → List VMG, ∀ N k, 1 ≤ k → k ≤ N → resetS_tail S N k = []) ∧
    ((alignUpTo s1 s2 i).S 0 = [sentinel]) ∧
    (1 ≤ i → Scell s1 s2 i 1 =
      pareto_merge2 [sentinel] (Qcell s1 s2 i 0)) := by
  refine ⟨?_, ?_, (align_sim s1 s2 i).1, ?_⟩
  · intro S N
    simp [resetS_tail]
  · intro S N k hk hkN
    simp [resetS_tail, hk, hkN]
  · intro hi
    cases i with
    | zero => exact absurd hi (by omega)
    | succ i =>
      rw [← Scell_zero_col s1 s2 (i + 1)]
      exact Scell_succ s1 s2 i 0

/-- Witness for claim C10 at `seq1 = "A"`, `seq2 = "C"`, after row 1. -/
theorem claim10_witness :
    resetS_tail (fun _ => [sentinel]) 2 0 = [sentinel] ∧
      resetS_tail (fun _ => [sentinel]) 2 1 = [] ∧
      (alignUpTo ['A'] ['C'] 1).S 0 = [sentinel] ∧
      Scell ['A'] ['C'] 1 1 =
        pareto_merge2 [sentinel] (Qcell ['A'] ['C'] 1 0) :=
  ⟨(claim10_s0_frame ['A'] ['C'] 1).1 (fun _ => [sentinel]) 2,
    (claim10_s0_frame ['A'] ['C'] 1).2.1 (fun _ => [sentinel]) 2 1 (by decide)
      (by decide),
    (claim10_s0_frame ['A'] ['C'] 1).2.2.1,
    (claim10_s0_frame ['A'] ['C'] 1).2.2.2 (by decide)⟩
